import Mathlib

/-!
Verification of the lazyqmd terminal UI (a Bun/TypeScript front-end for the
qmd document-indexing CLI) against its natural-language specification.

The TypeScript sources are shallowly embedded: pure helpers become Lean
functions over `List Char` / `String`, the subprocess boundary is modelled by
an explicit process-result record, the preview HTTP server's fetch handler
becomes a function from request path to response, and the file-watch/debounce
logic becomes a small state machine driven by timestamped events.

Modelling conventions:
* JavaScript regular expressions used by the parsers are hand-compiled to
  recursive character-list matchers that reproduce the greedy/lazy
  backtracking behaviour of the original patterns (over ASCII whitespace).
* External libraries (`marked`, YAML parsing, `JSON.parse`) and the file
  system are abstracted as function parameters; everything written in the
  repository itself is translated.
* A handler "throwing" is modelled as an `Except.error` escaping the
  modelled function; a caught exception never produces `Except.error`.
-/

namespace LazyQmd

/-- The character class of the JavaScript whitespace escape used by the
regexes and by `String.prototype.trim`, restricted to ASCII. -/
def jsWhite (c : Char) : Bool :=
  c = ' ' || c = '\t' || c = '\n' || c = '\r' || c = '\x0b' || c = '\x0c'

/-- JavaScript `String.prototype.trim` on a character list. -/
def jsTrimList (s : List Char) : List Char :=
  ((s.dropWhile jsWhite).reverse.dropWhile jsWhite).reverse

/-- JavaScript `String.prototype.trim`. -/
def jsTrim (s : String) : String :=
  String.mk (jsTrimList s.toList)

/-- `s.startsWith(c)` for a one-character pattern: the first character of
`s` is `c`. -/
def startsWithChar (c : Char) (s : String) : Bool :=
  match s.toList with
  | [] => false
  | d :: _ => d = c

/-- `s.endsWith(c)` for a one-character pattern: the last character of `s`
is `c`. -/
def endsWithChar (c : Char) (s : String) : Bool :=
  match s.toList.getLast? with
  | some d => d = c
  | none => false

/-! ## `fuzzyMatch` and the file-list filter (src/views/files.ts) -/

/-- The scanning loop of `fuzzyMatch`: walk the (lowercased) text once,
advancing a pointer into the (lowercased) query on each matching character;
the match succeeds when the whole query has been consumed. -/
def fuzzyLoop : List Char → List Char → Bool
  | _, [] => true
  | [], _ :: _ => false
  | t :: ts, q :: qs => if t = q then fuzzyLoop ts qs else fuzzyLoop ts (q :: qs)

/-- `toLowerCase` on one character, restricted to ASCII. -/
def jsToLower (c : Char) : Char :=
  if 'A' ≤ c ∧ c ≤ 'Z' then Char.ofNat (c.toNat + 32) else c

/-- `fuzzyMatch(query, text)` from src/views/files.ts. -/
def fuzzyMatch (query text : String) : Bool :=
  fuzzyLoop (text.toList.map jsToLower) (query.toList.map jsToLower)

/-- A parsed line of `qmd ls` output (src/qmd-cli.ts `FileEntry`). -/
structure FileEntry where
  size : String
  date : String
  uri : String
  path : String
deriving Repr, DecidableEq

/-- `FilesView.applyFilter`: trim the filter input; a blank filter shows the
full file list, otherwise keep the entries whose relative path fuzzy-matches
the query. -/
def applyFilter (inputValue : String) (allFiles : List FileEntry) : List FileEntry :=
  let query := jsTrim inputValue
  if query = "" then allFiles
  else allFiles.filter (fun f => fuzzyMatch query f.path)

/-! ## The subprocess `run` helpers (src/qmd-cli.ts and src/mcp-client.ts) -/

/-- Observable outcome of spawning the `qmd` subprocess: its exit code and
the collected stdout and stderr texts. -/
structure ProcResult where
  exitCode : Nat
  stdout : String
  stderr : String
deriving Repr, DecidableEq

/-- `run` from src/qmd-cli.ts: exit code 0 returns stdout; a non-zero exit
throws an error carrying the trimmed stderr, or a message naming the exit
code when the trimmed stderr is empty. -/
def qmdCliRun (p : ProcResult) : Except String String :=
  if p.exitCode ≠ 0 then
    .error (if jsTrim p.stderr = "" then "qmd exited with code " ++ toString p.exitCode
            else jsTrim p.stderr)
  else .ok p.stdout

/-- `run` from src/mcp-client.ts: exit code 0 returns stdout; a non-zero exit
throws an error naming the command, the exit code and the stderr text. -/
def mcpRun (args : List String) (p : ProcResult) : Except String String :=
  if p.exitCode ≠ 0 then
    .error ("qmd " ++ String.intercalate " " args ++ " failed (" ++
      toString p.exitCode ++ "): " ++ p.stderr)
  else .ok p.stdout

/-! ## `parseSearchOutput` and the search operations (src/mcp-client.ts) -/

/-- A search result record parsed from the qmd JSON output. -/
structure SearchResult where
  docid : String
  file : String
  title : String
  score : Int
  snippet : String
deriving Repr, DecidableEq

/-- `parseSearchOutput`: trim the CLI output; when the trimmed text is empty
or does not start with a bracket, return no results; otherwise hand the text
to the JSON parser (abstracted as `jsonParse`; a parse exception propagates).
-/
def parseSearchOutput (jsonParse : String → Except String (List SearchResult))
    (output : String) : Except String (List SearchResult) :=
  let trimmed := jsTrim output
  if trimmed = "" then .ok []
  else if ¬ startsWithChar '[' trimmed then .ok []
  else jsonParse trimmed

/-- `QmdMcpClient.search` (and its vsearch/query siblings): run the qmd
subprocess and parse its stdout with `parseSearchOutput`. The process result
is supplied explicitly. -/
def searchPipeline (jsonParse : String → Except String (List SearchResult))
    (args : List String) (p : ProcResult) : Except String (List SearchResult) :=
  match mcpRun args p with
  | .error e => .error e
  | .ok out => parseSearchOutput jsonParse out

/-! ## Management-form submit validation (src/views/add-collection.ts and
src/views/rename-collection.ts) -/

/-- Outcome of a form submit: either the completion callback fires with its
arguments, or it does not and a status message may be shown instead. -/
structure AddSubmitResult where
  fired : Option (String × String × String)
  status : Option String
deriving Repr, DecidableEq

/-- `AddCollectionView.submit`: trim the three fields (the pattern defaults
to `**/*.md` when blank); an empty path or name shows an error status and
does not invoke `onComplete`. -/
def addCollectionSubmit (pathValue nameValue patternValue : String) : AddSubmitResult :=
  let path := jsTrim pathValue
  let name := jsTrim nameValue
  let pattern := if jsTrim patternValue = "" then "**/*.md" else jsTrim patternValue
  if path = "" then { fired := none, status := some "Path is required." }
  else if name = "" then { fired := none, status := some "Name is required." }
  else { fired := some (path, name, pattern), status := none }

/-- Outcome of the rename-form submit. -/
structure RenameSubmitResult where
  fired : Option (String × String)
  status : Option String
deriving Repr, DecidableEq

/-- `RenameCollectionView.submit`: an empty trimmed new name shows an error
status; with no current collection nothing happens; otherwise `onComplete`
fires with the old and new names. -/
def renameCollectionSubmit (currentCollection : Option String)
    (newNameValue : String) : RenameSubmitResult :=
  let newName := jsTrim newNameValue
  if newName = "" then { fired := none, status := some "Name is required." }
  else
    match currentCollection with
    | none => { fired := none, status := none }
    | some oldName => { fired := some (oldName, newName), status := none }

/-! ## Preview resources: watcher and server shutdown (src/app.ts) -/

/-- The preview resource slots of `App` (`previewWatcher`, `previewServer`)
together with a log of the close/stop effects that were issued, so that
"closing" is observable. Handles are identified by numbers. -/
structure ResState where
  watcher : Option Nat
  server : Option Nat
  closedWatchers : List Nat
  stoppedServers : List Nat
deriving Repr, DecidableEq

/-- `App.stopPreview`: close the watcher when one is held and null the
reference; a null watcher makes this a no-op. -/
def stopPreview (s : ResState) : ResState :=
  match s.watcher with
  | some w => { s with watcher := none, closedWatchers := w :: s.closedWatchers }
  | none => s

/-- `App.cleanup`: stop the watcher, then stop the HTTP server when one is
held and null the reference. -/
def cleanup (s : ResState) : ResState :=
  let s := stopPreview s
  match s.server with
  | some sv => { s with server := none, stoppedServers := sv :: s.stoppedServers }
  | none => s

/-- The main-panel states of the UI controller. -/
inductive AppState where
  | collections | detail | search | document
  | addCollection | renameCollection | deleteCollection
deriving Repr, DecidableEq

/-- `App.leaveDocument`: stop the preview watcher, then return to the search
panel when the document was opened from search, otherwise to the detail
panel. -/
def leaveDocument (previousState : AppState) (r : ResState) : AppState × ResState :=
  (if previousState = .search then .search else .detail, stopPreview r)

/-- The `q` key handler: run `cleanup` (and then destroy the renderer, which
is outside the model). -/
def quitKey (r : ResState) : ResState :=
  cleanup r

/-! ## `listCollections` output parsing (src/qmd-cli.ts)

The JavaScript regexes are compiled by hand to recursive matchers:

* the split `/\n(?=\S)/` becomes `splitBlocks`;
* the anchored header `/^(\S+)\s+\(qmd:\/\/(\S+?)\/?\)/` becomes
  `matchHeader` (greedy runs resolve to maximal spans, the lazy capture to
  the shortest non-whitespace run closed by an optional slash and a
  parenthesis);
* the searches `/Pattern:\s+(.+)/`, `/Updated:\s+(.+)/` and
  `/Files:\s+(\d+)/` become `searchLabel` and `searchDigits`, which try
  every start position from the left and reproduce the backtracking of the
  greedy `\s+` against the following capture. -/

/-- Split a string at every newline that is followed by a non-whitespace
character, consuming the newline (the split `output.split(/\n(?=\S)/)`). -/
def splitBlocksAux : List Char → List Char → List (List Char)
  | [], acc => [acc.reverse]
  | '\n' :: c :: rest, acc =>
    if jsWhite c then splitBlocksAux (c :: rest) ('\n' :: acc)
    else acc.reverse :: splitBlocksAux (c :: rest) []
  | c :: rest, acc => splitBlocksAux rest (c :: acc)

/-- The block list of a `qmd collection list` output. -/
def splitBlocks (output : String) : List (List Char) :=
  splitBlocksAux output.toList []

/-- The lazy URI capture `(\S+?)\/?\)`: consume non-whitespace characters one
at a time, stopping as soon as the rest starts with `/)` or `)`. -/
def matchUriLazy : List Char → List Char → Option String
  | [], _ => none
  | c :: rest, acc =>
    if jsWhite c then none
    else
      match rest with
      | '/' :: ')' :: _ => some (String.mk (c :: acc).reverse)
      | ')' :: _ => some (String.mk (c :: acc).reverse)
      | _ => matchUriLazy rest (c :: acc)

/-- Drop a literal character sequence from the front of a list. -/
def dropLit : List Char → List Char → Option (List Char)
  | [], s => some s
  | _ :: _, [] => none
  | l :: ls, c :: cs => if c = l then dropLit ls cs else none

/-- The anchored header regex `/^(\S+)\s+\(qmd:\/\/(\S+?)\/?\)/` on a block:
a maximal non-empty non-whitespace run (the name), a non-empty whitespace
run, the literal `(qmd://`, then the lazy URI capture. Returns the two
captures. -/
def matchHeader (block : List Char) : Option (String × String) :=
  let name := block.takeWhile (fun c => ¬ jsWhite c)
  let rest := block.dropWhile (fun c => ¬ jsWhite c)
  if name = [] then none
  else
    let ws := rest.takeWhile jsWhite
    let rest2 := rest.dropWhile jsWhite
    if ws = [] then none
    else
      match dropLit "(qmd://".toList rest2 with
      | none => none
      | some rest3 =>
        match matchUriLazy rest3 [] with
        | none => none
        | some uriCap => some (String.mk name, uriCap)

/-- Non-line-terminator characters, the class matched by `.` without the `s`
flag. -/
def notNewline (c : Char) : Bool :=
  c ≠ '\n' && c ≠ '\r'

/-- After a matched label, the tail `\s+(.+)`: the greedy `\s+` backtracks
from the maximal whitespace run down to one character until the following
`(.+)` can match at least one non-line-terminator character; the capture is
then the maximal non-line-terminator run. `j` counts down candidate
whitespace lengths. -/
def matchWsCaptureFrom (t : List Char) : Nat → Option (List Char)
  | 0 => none
  | j + 1 =>
    match t.drop (j + 1) with
    | c :: rest =>
      if notNewline c then some (c :: rest.takeWhile notNewline)
      else matchWsCaptureFrom t j
    | [] => matchWsCaptureFrom t j

/-- Match `\s+(.+)` at the start of `t`. -/
def matchWsCapture (t : List Char) : Option (List Char) :=
  matchWsCaptureFrom t (t.takeWhile jsWhite).length

/-- The unanchored search `/Label:\s+(.+)/`: try every start position from
the left; at each, the literal label followed by `\s+(.+)`. -/
def searchLabel (label : List Char) : List Char → Option (List Char)
  | [] =>
    match dropLit label [] with
    | some rest => matchWsCapture rest
    | none => none
  | c :: tail =>
    match dropLit label (c :: tail) with
    | some rest =>
      match matchWsCapture rest with
      | some cap => some cap
      | none => searchLabel label tail
    | none => searchLabel label tail

/-- Match `\s+(\d+)` at the start of `t`: since digits are non-whitespace,
the greedy `\s+` resolves to the maximal whitespace run (non-empty), and the
capture is the maximal digit run immediately after it (non-empty). -/
def matchWsDigits (t : List Char) : Option (List Char) :=
  let ws := t.takeWhile jsWhite
  let rest := t.dropWhile jsWhite
  if ws = [] then none
  else
    let ds := rest.takeWhile Char.isDigit
    if ds = [] then none else some ds

/-- The unanchored search `/Label:\s+(\d+)/`. -/
def searchDigits (label : List Char) : List Char → Option (List Char)
  | [] =>
    match dropLit label [] with
    | some rest => matchWsDigits rest
    | none => none
  | c :: tail =>
    match dropLit label (c :: tail) with
    | some rest =>
      match matchWsDigits rest with
      | some cap => some cap
      | none => searchDigits label tail
    | none => searchDigits label tail

/-- `parseInt(digits, 10)` on a non-empty digit capture. -/
def digitsToNat (ds : List Char) : Nat :=
  ds.foldl (fun acc c => acc * 10 + (c.toNat - '0'.toNat)) 0

/-- A collection descriptor (src/qmd-cli.ts `Collection`). -/
structure Collection where
  name : String
  uri : String
  path : String
  pattern : String
  files : Nat
  updated : String
deriving Repr, DecidableEq

/-- The qmd config file's `collections` map, as name/path pairs. -/
def QmdConfig := List (String × String)

/-- The label of the `/Pattern:\s+(.+)/` search. -/
def patternLabel : List Char := "Pattern:".toList

/-- The label of the `/Files:\s+(\d+)/` search. -/
def filesLabel : List Char := "Files:".toList

/-- The label of the `/Updated:\s+(.+)/` search. -/
def updatedLabel : List Char := "Updated:".toList

/-- The loop body of `listCollections` on one block: blocks without a
matching header contribute nothing; otherwise build the descriptor with the
parsed name and uri, the config path (empty when the name is absent from the
config), and the pattern / file count / updated fields with their defaults.
-/
def parseBlock (config : QmdConfig) (block : List Char) : Option Collection :=
  match matchHeader block with
  | none => none
  | some (name, uriCap) =>
    some {
      name := name
      uri := "qmd://" ++ uriCap ++ "/"
      path := ((config.lookup name).getD "")
      pattern := match searchLabel patternLabel block with
        | some cap => String.mk (jsTrimList cap)
        | none => "**/*.md"
      files := match searchDigits filesLabel block with
        | some cap => digitsToNat cap
        | none => 0
      updated := match searchLabel updatedLabel block with
        | some cap => String.mk (jsTrimList cap)
        | none => "unknown" }

/-- `listCollections` from src/qmd-cli.ts, with the subprocess output and
the parsed config supplied explicitly. -/
def listCollections (config : QmdConfig) (output : String) : List Collection :=
  (splitBlocks output).filterMap (parseBlock config)

/-! ## `escapeHtml` and the preview page builder (src/app.ts) -/

/-- Replace every occurrence of a single character by a replacement string
(one chained step of `String.prototype.replace` with a global single-character
pattern). -/
def replaceChar (target : Char) (repl : List Char) : List Char → List Char
  | [] => []
  | c :: rest =>
    (if c = target then repl else [c]) ++ replaceChar target repl rest

/-- `escapeHtml` from src/app.ts: replace ampersand first, then the angle
brackets, then the double quote, each by its HTML entity. -/
def escapeHtml (s : String) : String :=
  String.mk (replaceChar '\"' "&quot;".toList
    (replaceChar '>' "&gt;".toList
      (replaceChar '<' "&lt;".toList
        (replaceChar '&' "&amp;".toList s.toList))))

/-- The characters after the last slash (`filePath.split("/").pop()`; the
split always yields at least one element, so the `?? "Preview"` fallback in
the source is unreachable). -/
def lastSegment (s : List Char) : List Char :=
  (s.reverse.takeWhile (· ≠ '/')).reverse

/-- `replace(/\.md$/i, "")`: strip a case-insensitive `.md` suffix. -/
def stripMdSuffix (s : List Char) : List Char :=
  match s.reverse with
  | d :: m :: '.' :: rest =>
    if (d = 'd' ∨ d = 'D') ∧ (m = 'm' ∨ m = 'M') then rest.reverse else s
  | _ => s

/-- The terminator `\r?\n---` of the frontmatter regex, tried at one
position (the greedy `\r?` prefers consuming a carriage return). -/
def fmTerm : List Char → Option (List Char)
  | '\r' :: '\n' :: '-' :: '-' :: '-' :: rest => some rest
  | '\n' :: '-' :: '-' :: '-' :: rest => some rest
  | _ => none

/-- The trailing `\r?\n?` of the frontmatter regex (both optionals greedy).
-/
def fmTail : List Char → List Char
  | '\r' :: '\n' :: rest => rest
  | '\r' :: rest => rest
  | '\n' :: rest => rest
  | rest => rest

/-- The lazy capture `([\s\S]*?)` closed by `\r?\n---\r?\n?`: grow the
capture one character at a time, stopping at the first position where the
terminator matches. Returns the capture and the remainder after the whole
match. -/
def fmScan : List Char → List Char → Option (String × List Char)
  | acc, s =>
    match fmTerm s with
    | some rest => some (String.mk acc.reverse, fmTail rest)
    | none =>
      match s with
      | [] => none
      | c :: rest => fmScan (c :: acc) rest

/-- The anchored frontmatter regex `/^---\r?\n([\s\S]*?)\r?\n---\r?\n?/`:
returns the YAML capture and the document body after the matched block. -/
def extractFrontmatter : List Char → Option (String × List Char)
  | '-' :: '-' :: '-' :: '\r' :: '\n' :: rest => fmScan [] rest
  | '-' :: '-' :: '-' :: '\n' :: rest => fmScan [] rest
  | _ => none

/-- One rendered frontmatter entry: definition-list markup around the
escaped key and escaped stringified value. -/
def fmEntryHtml (k v : String) : String :=
  "<dt>" ++ escapeHtml k ++ "</dt><dd>" ++ escapeHtml v ++ "</dd>"

/-- The frontmatter block markup: empty when there are no entries besides
the title, otherwise a `div`-wrapped definition list of the escaped entries.
-/
def frontmatterHtml (entries : List (String × String)) : String :=
  if entries = [] then ""
  else "<div class=\"frontmatter\"><dl>"
    ++ String.join (entries.map fun kv => fmEntryHtml kv.1 kv.2)
    ++ "</dl></div>"

/-- The fixed style sheet of the preview page (braces written as hex
escapes). -/
def previewCss : String :=
  "\n  body \x7b font-family: -apple-system, BlinkMacSystemFont, \"Segoe UI\", Helvetica, Arial, sans-serif; max-width: 800px; margin: 0 auto; padding: 2rem; line-height: 1.6; color: #24292f; \x7d\n  h1 \x7b border-bottom: 1px solid #d0d7de; padding-bottom: 0.3em; \x7d\n  .frontmatter \x7b background: #f6f8fa; border: 1px solid #d0d7de; border-radius: 6px; padding: 1rem; margin-bottom: 1.5rem; \x7d\n  .frontmatter dl \x7b margin: 0; display: grid; grid-template-columns: auto 1fr; gap: 0.25rem 1rem; \x7d\n  .frontmatter dt \x7b font-weight: 600; color: #57606a; \x7d\n  .frontmatter dd \x7b margin: 0; \x7d\n  img \x7b max-width: 100%; \x7d\n  pre \x7b background: #f6f8fa; border-radius: 6px; padding: 1rem; overflow-x: auto; \x7d\n  code \x7b background: #f6f8fa; border-radius: 3px; padding: 0.2em 0.4em; font-size: 85%; \x7d\n  pre code \x7b background: none; padding: 0; \x7d\n  blockquote \x7b border-left: 4px solid #d0d7de; margin: 0; padding: 0 1rem; color: #57606a; \x7d\n  table \x7b border-collapse: collapse; width: 100%; \x7d\n  th, td \x7b border: 1px solid #d0d7de; padding: 0.5rem; text-align: left; \x7d\n  th \x7b background: #f6f8fa; \x7d\n"

/-- The fixed polling script of the preview page (apostrophes and braces
written as hex escapes). -/
def previewScript : String :=
  "\n  let lastVersion = \x27\x27;\n  setInterval(async () => \x7b\n    try \x7b\n      const res = await fetch(\x27/version\x27);\n      const v = await res.text();\n      if (lastVersion && v !== lastVersion) location.reload();\n      lastVersion = v;\n    \x7d catch \x7b\x7d\n  \x7d, 500);\n"

/-- The HTML page skeleton with the escaped title, the frontmatter block and
the rendered markdown body interpolated. -/
def previewPage (title frontmatter htmlBody : String) : String :=
  "<!DOCTYPE html>\n<html><head>\n<meta charset=\"utf-8\">\n<meta name=\"viewport\" content=\"width=device-width, initial-scale=1\">\n<title>"
  ++ escapeHtml title
  ++ "</title>\n<style>" ++ previewCss ++ "</style>\n</head><body>\n<h1>"
  ++ escapeHtml title
  ++ "</h1>\n" ++ frontmatter ++ "\n" ++ htmlBody
  ++ "\n<script>" ++ previewScript ++ "</script>\n</body></html>"

/-- `buildPreviewHtml` from src/app.ts. The markdown renderer (`marked`) and
the YAML parser are abstracted as parameters; YAML objects are modelled as
key/value lists whose values are already stringified (`String(v)`), with
`yamlParse` returning `none` for a parse exception. A present frontmatter
block is always removed from the body; the title is replaced only when the
parsed object has a non-empty `title` value (JavaScript truthiness); the
definition list renders every entry except `title`. -/
def buildPreviewHtml (mdRender : String → String)
    (yamlParse : String → Option (List (String × String)))
    (rawContent filePath : String) : String :=
  let fileTitle := String.mk (stripMdSuffix (lastSegment filePath.toList))
  match extractFrontmatter rawContent.toList with
  | none => previewPage fileTitle "" (mdRender rawContent)
  | some (fmText, bodyChars) =>
    let body := String.mk bodyChars
    match yamlParse fmText with
    | none => previewPage fileTitle "" (mdRender body)
    | some fm =>
      let title := match fm.lookup "title" with
        | some t => if t = "" then fileTitle else t
        | none => fileTitle
      let entries := fm.filter (fun kv => kv.1 ≠ "title")
      previewPage title (frontmatterHtml entries) (mdRender body)

/-! ## The preview HTTP server (src/app.ts `ensurePreviewServer`) -/

/-- Percent-decoding of a request path (`decodeURIComponent`), modelled at
the byte level: every `%XX` hex escape becomes the character with that code,
a malformed escape is a decode exception (`none`); multi-byte UTF-8
recombination and its validation are not modelled. -/
def percentDecode : List Char → Option (List Char)
  | [] => some []
  | '%' :: a :: b :: rest =>
    match hexDigitVal a, hexDigitVal b with
    | some x, some y => (percentDecode rest).map (Char.ofNat (16 * x + y) :: ·)
    | _, _ => none
  | '%' :: _ => none
  | c :: rest => (percentDecode rest).map (c :: ·)
where
  hexDigitVal (c : Char) : Option Nat :=
    if '0' ≤ c ∧ c ≤ '9' then some (c.toNat - '0'.toNat)
    else if 'a' ≤ c ∧ c ≤ 'f' then some (c.toNat - 'a'.toNat + 10)
    else if 'A' ≤ c ∧ c ≤ 'F' then some (c.toNat - 'A'.toNat + 10)
    else none

/-- `join(previewBaseDir, reqPath)` for an absolute-looking request path:
concatenation with a single separating slash (dot-segment normalisation is
not modelled; no claim depends on it). -/
def joinPath (base p : String) : String :=
  (if endsWithChar '/' base then String.mk (base.toList.dropLast) else base)
  ++ (if startsWithChar '/' p then p else "/" ++ p)

/-- The mutable fields of `App` read by the server's fetch handler. -/
structure ServerState where
  previewVersion : Nat
  previewFilePath : Option String
  previewBaseDir : Option String
deriving Repr, DecidableEq

/-- An HTTP response: status code and body text. -/
structure HttpResponse where
  status : Nat
  body : String
deriving Repr, DecidableEq

/-- The fetch handler of `ensurePreviewServer`. The file system is
abstracted as a partial map from paths to file contents. `/version` returns
the counter; `/` renders the current preview file (404 without a file, 500
when reading throws); any other path is served from the preview base
directory when the decoded path names an existing file there, and answered
`Not found` otherwise. A decode exception escapes the handler, which the
runtime answers with a default 500. -/
def serverFetch (mdRender : String → String)
    (yamlParse : String → Option (List (String × String)))
    (fs : String → Option String) (s : ServerState) (path : String) :
    HttpResponse :=
  if path = "/version" then
    { status := 200, body := toString s.previewVersion }
  else if path = "/" then
    match s.previewFilePath with
    | none => { status := 404, body := "No file selected" }
    | some fp =>
      match fs fp with
      | some content =>
        { status := 200, body := buildPreviewHtml mdRender yamlParse content fp }
      | none => { status := 500, body := "Error" }
  else
    match s.previewBaseDir with
    | some base =>
      match percentDecode path.toList with
      | none => { status := 500, body := "Internal Server Error" }
      | some reqPath =>
        match fs (joinPath base (String.mk reqPath)) with
        | some content => { status := 200, body := content }
        | none => { status := 404, body := "Not found" }
    | none => { status := 404, body := "Not found" }

/-! ## The file watcher and debounce timer (src/app.ts `openPreview`)

The watcher callback and its 100 ms `setTimeout` debounce are modelled as a
state machine over discrete time: `pending` holds the absolute time at which
the scheduled timer will fire (`none` when no timer is scheduled), and
`version` is `previewVersion`. A scheduled timer whose time has been reached
fires before the next event is handled; an event whose filename is present
and differs from the watched basename returns early; any other event clears
the pending timer and schedules a new one 100 ms from now. -/

/-- The debounce state: the version counter and the absolute fire time of
the scheduled timer, if any. -/
structure PreviewState where
  version : Nat
  pending : Option Nat
deriving Repr, DecidableEq

/-- Deliver the scheduled timer callback when its time has been reached:
increment the version counter and clear the schedule. -/
def expireTimer (s : PreviewState) (now : Nat) : PreviewState :=
  match s.pending with
  | some tf => if tf ≤ now then { version := s.version + 1, pending := none } else s
  | none => s

/-- The body of the watcher callback for an event carrying `filename`
(`none` models a platform that reports no filename): a present filename
different from the watched basename causes an early return; otherwise the
pending timeout is cleared and a new one is scheduled 100 ms from now. -/
def fsEvent (watchedName : String) (s : PreviewState) (now : Nat)
    (filename : Option String) : PreviewState :=
  match filename with
  | some name =>
    if name ≠ watchedName then s
    else { s with pending := some (now + 100) }
  | none => { s with pending := some (now + 100) }

/-- Handle one timestamped watch event: first deliver an already-expired
timer, then run the callback. -/
def watchStep (watchedName : String) (s : PreviewState)
    (ev : Nat × Option String) : PreviewState :=
  fsEvent watchedName (expireTimer s ev.1) ev.1 ev.2

/-- Run a sequence of timestamped watch events. -/
def runWatch (watchedName : String) (s : PreviewState)
    (events : List (Nat × Option String)) : PreviewState :=
  events.foldl (watchStep watchedName) s

/-- Let a still-scheduled timer fire after all events (time advances past
every schedule). -/
def flushTimer (s : PreviewState) : PreviewState :=
  match s.pending with
  | some _ => { version := s.version + 1, pending := none }
  | none => s

/-! ## Error handling of the UI operation handlers (src/app.ts,
src/views/search.ts, src/views/document.ts)

Each handler is modelled as a function of the outcome of the external
operation it awaits (an `Except String` value standing for a normal result
or a thrown exception). A handler that catches everything is a total
function into an observable outcome; a handler that lets an exception
escape to the event loop is modelled as returning `Except.error`. -/

/-- What a management handler leaves on screen. -/
inductive HandlerOutcome where
  /-- collections were refreshed and the management view was left -/
  | leftManagement
  /-- a status message was shown and the view stayed -/
  | statusShown (msg : String)
  /-- the view stayed with no message shown -/
  | silentStay
deriving Repr, DecidableEq

/-- `addCollectionView.onComplete` (src/app.ts): on success refresh and
leave; a thrown error is caught and shown as an error status. -/
def addCollectionHandler (op : Except String Unit) : HandlerOutcome :=
  match op with
  | .ok _ => .leftManagement
  | .error e => .statusShown ("Error: " ++ e)

/-- `renameCollectionView.onComplete` (src/app.ts): same shape as the add
handler. -/
def renameCollectionHandler (op : Except String Unit) : HandlerOutcome :=
  match op with
  | .ok _ => .leftManagement
  | .error e => .statusShown ("Error: " ++ e)

/-- `confirmDeleteView.onConfirm` (src/app.ts): on success refresh and
leave; a thrown error is caught and swallowed (the comment in the source
says "Stay in delete view on error") with no status message. -/
def confirmDeleteHandler (op : Except String Unit) : HandlerOutcome :=
  match op with
  | .ok _ => .leftManagement
  | .error _ => .silentStay

/-- `DocumentView.load` content outcome (src/views/document.ts): on success
the document text is shown; a thrown error is caught and rendered as an
error message in the content area. -/
def documentLoadHandler (op : Except String String) : String :=
  match op with
  | .ok text => text
  | .error e => "**Error:** " ++ e

/-- The three search modes of `SearchView`. -/
inductive SearchMode where
  | search | vsearch | query
deriving Repr, DecidableEq

/-- The fields of `qmd status` read by the embeddings precheck. -/
structure StatusResult where
  needsEmbedding : Nat
  hasVectorIndex : Bool
deriving Repr, DecidableEq

/-- What `performSearch` leaves on screen. -/
inductive SearchOutcome where
  /-- the blank-query early return -/
  | noop
  /-- a status message was shown (precheck notice, no-results, count, or a
  caught error) -/
  | statusShown (msg : String)
  /-- results were listed, with the shown count -/
  | resultsShown (n : Nat)
deriving Repr, DecidableEq

/-- `SearchView.performSearch` (src/views/search.ts): a blank query returns
early; in the vector and query modes the `qmd status` precheck runs before
the try/catch, so an exception thrown there escapes the handler
(`Except.error`); the search call itself runs inside the try/catch and a
thrown error becomes an error status message. -/
def performSearch (mode : SearchMode) (queryValue : String)
    (statusOp : Except String StatusResult)
    (searchOp : Except String (List SearchResult)) :
    Except String SearchOutcome :=
  if jsTrim queryValue = "" then .ok .noop
  else
    match
      (if mode = .vsearch ∨ mode = .query then
        match statusOp with
        | .error e => some (Except.error e)
        | .ok st =>
          if st.needsEmbedding > 0 ∧ st.hasVectorIndex = false then
            some (Except.ok (SearchOutcome.statusShown
              "No embeddings yet. Run \x27qmd embed\x27 first."))
          else none
      else none) with
    | some early => early
    | none =>
      match searchOp with
      | .error e => .ok (.statusShown ("Error: " ++ e))
      | .ok [] => .ok (.statusShown "No results found.")
      | .ok results => .ok (.resultsShown results.length)

/-! ## Theorems -/

/-- C4: the management forms reject an empty text field: an add-collection
submit with an empty trimmed path or name does not invoke the completion
callback and shows an error status instead; a rename submit with an empty
trimmed new name does not invoke the callback; the callbacks fire only when
the required fields are non-empty after trimming. -/
theorem c4_form_validation :
    (∀ p n pa, (addCollectionSubmit p n pa).fired ≠ none ↔
      (jsTrim p ≠ "" ∧ jsTrim n ≠ "")) ∧
    (∀ p n pa, jsTrim p = "" →
      addCollectionSubmit p n pa = ⟨none, some "Path is required."⟩) ∧
    (∀ p n pa, jsTrim p ≠ "" → jsTrim n = "" →
      addCollectionSubmit p n pa = ⟨none, some "Name is required."⟩) ∧
    (∀ cur v, jsTrim v = "" → (renameCollectionSubmit cur v).fired = none ∧
      (renameCollectionSubmit cur v).status = some "Name is required.") ∧
    (∀ cur v pr, (renameCollectionSubmit cur v).fired = some pr →
      jsTrim v ≠ "") := by
  refine ⟨?_, ?_, ?_, ?_, ?_⟩
  · intro p n pa
    by_cases hp : jsTrim p = "" <;> by_cases hn : jsTrim n = "" <;>
      simp [addCollectionSubmit, hp, hn]
  · intro p n pa hp
    simp [addCollectionSubmit, hp]
  · intro p n pa hp hn
    simp [addCollectionSubmit, hp, hn]
  · intro cur v hv
    simp [renameCollectionSubmit, hv]
  · intro cur v pr h
    intro hv
    cases cur <;> simp [renameCollectionSubmit, hv] at h

/-- Witness for C4 at concrete inputs. -/
theorem c4_form_validation_witness :
    addCollectionSubmit "  " "n" "" = ⟨none, some "Path is required."⟩ ∧
    addCollectionSubmit "/tmp" " " "" = ⟨none, some "Name is required."⟩ ∧
    (renameCollectionSubmit (some "old") "  ").fired = none ∧
    jsTrim "x" ≠ "" :=
  ⟨c4_form_validation.2.1 "  " "n" "" (by decide),
   c4_form_validation.2.2.1 "/tmp" " " "" (by decide) (by decide),
   (c4_form_validation.2.2.2.1 (some "old") "  " (by decide)).1,
   c4_form_validation.2.2.2.2 (some "old") "x" ("old", "x") (by decide)⟩

/-- C5: both `run` helpers throw if and only if the subprocess exit code is
non-zero; on exit code 0 they return the stdout text unchanged; the
src/qmd-cli.ts error carries the trimmed stderr, or a message naming the
exit code when the trimmed stderr is empty, and the src/mcp-client.ts error
carries the exit code and the stderr text. -/
theorem c5_run_helper :
    (∀ p, qmdCliRun p = .ok p.stdout ↔ p.exitCode = 0) ∧
    (∀ p, (∃ e, qmdCliRun p = .error e) ↔ p.exitCode ≠ 0) ∧
    (∀ p, p.exitCode ≠ 0 → jsTrim p.stderr ≠ "" →
      qmdCliRun p = .error (jsTrim p.stderr)) ∧
    (∀ p, p.exitCode ≠ 0 → jsTrim p.stderr = "" →
      qmdCliRun p = .error ("qmd exited with code " ++ toString p.exitCode)) ∧
    (∀ args p, mcpRun args p = .ok p.stdout ↔ p.exitCode = 0) ∧
    (∀ args p, (∃ e, mcpRun args p = .error e) ↔ p.exitCode ≠ 0) ∧
    (∀ args p, p.exitCode ≠ 0 → mcpRun args p =
      .error ("qmd " ++ String.intercalate " " args ++ " failed (" ++
        toString p.exitCode ++ "): " ++ p.stderr)) := by
  refine ⟨?_, ?_, ?_, ?_, ?_, ?_, ?_⟩
  · intro p
    by_cases h : p.exitCode = 0 <;> simp [qmdCliRun, h]
  · intro p
    by_cases h : p.exitCode = 0 <;> simp [qmdCliRun, h]
  · intro p h hs
    simp [qmdCliRun, h, hs]
  · intro p h hs
    simp [qmdCliRun, h, hs]
  · intro args p
    by_cases h : p.exitCode = 0 <;> simp [mcpRun, h]
  · intro args p
    by_cases h : p.exitCode = 0 <;> simp [mcpRun, h]
  · intro args p h
    simp [mcpRun, h]

/-- Witness for C5 at concrete process results. -/
theorem c5_run_helper_witness :
    qmdCliRun ⟨0, "out", ""⟩ = .ok "out" ∧
    qmdCliRun ⟨1, "", "bad\n"⟩ = .error "bad" ∧
    qmdCliRun ⟨3, "", " "⟩ = .error "qmd exited with code 3" ∧
    mcpRun ["status"] ⟨2, "", "oops"⟩ =
      .error "qmd status failed (2): oops" :=
  ⟨(c5_run_helper.1 ⟨0, "out", ""⟩).mpr rfl,
   by
    have := c5_run_helper.2.2.1 ⟨1, "", "bad\n"⟩ (by decide) (by decide)
    simpa using this,
   by
    have := c5_run_helper.2.2.2.1 ⟨3, "", " "⟩ (by decide) (by decide)
    simpa using this,
   by
    have := c5_run_helper.2.2.2.2.2.2 ["status"] ⟨2, "", "oops"⟩ (by decide)
    simpa using this⟩

/-- C7: quitting runs `cleanup`, which closes the watcher and stops the
preview server and nulls both references; leaving the document view stops
the watcher; with null references these operations are no-ops. -/
theorem c7_cleanup_on_exit :
    (∀ r, quitKey r = cleanup r) ∧
    (∀ r, (cleanup r).watcher = none ∧ (cleanup r).server = none) ∧
    (∀ r w, r.watcher = some w →
      (stopPreview r).closedWatchers = w :: r.closedWatchers ∧
      (stopPreview r).watcher = none) ∧
    (∀ r sv, r.server = some sv →
      (cleanup r).stoppedServers = sv :: r.stoppedServers) ∧
    (∀ r, r.watcher = none → stopPreview r = r) ∧
    (∀ r, r.watcher = none → r.server = none → cleanup r = r) ∧
    (∀ prev r, (leaveDocument prev r).2 = stopPreview r) := by
  refine ⟨fun r => rfl, ?_, ?_, ?_, ?_, ?_, fun prev r => rfl⟩
  · intro r
    cases hw : r.watcher <;> cases hs : r.server <;>
      simp [cleanup, stopPreview, hw, hs]
  · intro r w hw
    simp [stopPreview, hw]
  · intro r sv hs
    cases hw : r.watcher <;> simp [cleanup, stopPreview, hw, hs]
  · intro r hw
    simp [stopPreview, hw]
  · intro r hw hs
    simp [cleanup, stopPreview, hw, hs]

/-- Witness for C7 at a concrete resource state. -/
theorem c7_cleanup_on_exit_witness :
    (cleanup ⟨some 1, some 2, [], []⟩).watcher = none ∧
    (stopPreview ⟨some 1, some 2, [], []⟩).closedWatchers = [1] ∧
    (cleanup ⟨some 1, some 2, [], []⟩).stoppedServers = [2] ∧
    stopPreview ⟨none, some 2, [], []⟩ = ⟨none, some 2, [], []⟩ ∧
    cleanup ⟨none, none, [3], [4]⟩ = ⟨none, none, [3], [4]⟩ :=
  ⟨(c7_cleanup_on_exit.2.1 ⟨some 1, some 2, [], []⟩).1,
   (c7_cleanup_on_exit.2.2.1 ⟨some 1, some 2, [], []⟩ 1 rfl).1,
   c7_cleanup_on_exit.2.2.2.1 ⟨some 1, some 2, [], []⟩ 2 rfl,
   c7_cleanup_on_exit.2.2.2.2.1 ⟨none, some 2, [], []⟩ rfl,
   c7_cleanup_on_exit.2.2.2.2.2.1 ⟨none, none, [3], [4]⟩ rfl rfl⟩

/-- C10: when the trimmed subprocess output is empty or does not start with
a bracket, `parseSearchOutput` returns the empty result list without
raising, so the search operations yield zero results on non-JSON CLI output
(given a zero exit code). -/
theorem c10_non_json_output :
    (∀ jp out, jsTrim out = "" ∨ startsWithChar '[' (jsTrim out) = false →
      parseSearchOutput jp out = .ok []) ∧
    (∀ jp args p, p.exitCode = 0 →
      (jsTrim p.stdout = "" ∨ startsWithChar '[' (jsTrim p.stdout) = false) →
      searchPipeline jp args p = .ok []) := by
  constructor
  · intro jp out h
    rcases h with h | h
    · simp [parseSearchOutput, h]
    · by_cases he : jsTrim out = "" <;> simp [parseSearchOutput, he, h]
  · intro jp args p hc h
    have hrun : mcpRun args p = .ok p.stdout := by simp [mcpRun, hc]
    rcases h with h | h
    · simp [searchPipeline, hrun, parseSearchOutput, h]
    · by_cases he : jsTrim p.stdout = "" <;>
        simp [searchPipeline, hrun, parseSearchOutput, he, h]

/-- Witness for C10 on concrete non-JSON outputs. -/
theorem c10_non_json_output_witness :
    parseSearchOutput (fun _ => .error "boom") "qmd: no results\n" = .ok [] ∧
    parseSearchOutput (fun _ => .error "boom") "   " = .ok [] ∧
    searchPipeline (fun _ => .error "boom") ["search", "x", "--json"]
      ⟨0, "plain text", ""⟩ = .ok [] :=
  ⟨c10_non_json_output.1 (fun _ => .error "boom") "qmd: no results\n"
    (Or.inr (by decide)),
   c10_non_json_output.1 (fun _ => .error "boom") "   " (Or.inl (by decide)),
   c10_non_json_output.2 (fun _ => .error "boom") ["search", "x", "--json"]
    ⟨0, "plain text", ""⟩ rfl (Or.inr (by decide))⟩

/-- C2 counterexample: the delete-collection confirm handler catches the
thrown error but shows no status message (it stays silently in the delete
view), and in vector-search mode the `qmd status` precheck runs outside the
try/catch, so its exception escapes the handler; both contradict the claim
that every such handler catches and shows a failure message. -/
theorem c2_counterexample :
    confirmDeleteHandler (.error "boom") = .silentStay ∧
    performSearch .vsearch "query" (.error "boom") (.ok []) =
      .error "boom" :=
  ⟨rfl, rfl⟩

/-- C2 (amended): the add-collection, rename-collection and document-load
handlers, and the search-call error path of `performSearch`, catch a thrown
exception and show a message describing the failure; the delete-collection
handler catches the exception but shows no message; in the vector and query
modes the embeddings-status precheck runs before the try/catch and its
exception escapes the handler. -/
theorem c2_handler_errors :
    (∀ e, addCollectionHandler (.error e) = .statusShown ("Error: " ++ e)) ∧
    (∀ e, renameCollectionHandler (.error e) = .statusShown ("Error: " ++ e)) ∧
    (∀ e, documentLoadHandler (.error e) = "**Error:** " ++ e) ∧
    (∀ e, confirmDeleteHandler (.error e) = .silentStay) ∧
    (∀ q st e, jsTrim q ≠ "" → performSearch .search q st (.error e) =
      .ok (.statusShown ("Error: " ++ e))) ∧
    (∀ q sr e, jsTrim q ≠ "" → performSearch .vsearch q (.error e) sr =
      .error e) ∧
    (∀ q sr e, jsTrim q ≠ "" → performSearch .query q (.error e) sr =
      .error e) := by
  refine ⟨fun e => rfl, fun e => rfl, fun e => rfl, fun e => rfl, ?_, ?_, ?_⟩
  · intro q st e hq
    simp [performSearch, hq]
  · intro q sr e hq
    simp [performSearch, hq]
  · intro q sr e hq
    simp [performSearch, hq]

/-- Witness for C2 (amended) at concrete inputs. -/
theorem c2_handler_errors_witness :
    performSearch .search "x" (.ok ⟨0, true⟩) (.error "fail") =
      .ok (.statusShown "Error: fail") ∧
    performSearch .vsearch "x" (.error "fail") (.ok []) = .error "fail" ∧
    performSearch .query "x" (.error "fail") (.ok []) = .error "fail" :=
  ⟨c2_handler_errors.2.2.2.2.1 "x" (.ok ⟨0, true⟩) "fail" (by decide),
   c2_handler_errors.2.2.2.2.2.1 "x" (.ok []) "fail" (by decide),
   c2_handler_errors.2.2.2.2.2.2 "x" (.ok []) "fail" (by decide)⟩

/-- The scanning loop of `fuzzyMatch` succeeds exactly on (not necessarily
contiguous) subsequences: greedy single-pass matching is complete for the
subsequence relation. -/
theorem fuzzyLoop_iff_sublist (t q : List Char) :
    fuzzyLoop t q = true ↔ q.Sublist t := by
  induction t generalizing q with
  | nil =>
    cases q with
    | nil => simp [fuzzyLoop]
    | cons a as => simp [fuzzyLoop]
  | cons c ts ih =>
    cases q with
    | nil => simp [fuzzyLoop, List.nil_sublist]
    | cons a as =>
      by_cases h : c = a
      · subst h
        have hstep : fuzzyLoop (c :: ts) (c :: as) = fuzzyLoop ts as := by
          simp [fuzzyLoop]
        rw [hstep, ih as]
        exact (List.cons_sublist_cons).symm
      · simp only [fuzzyLoop, if_neg h]
        rw [ih (a :: as)]
        constructor
        · exact fun hs => hs.cons c
        · intro hs
          cases hs with
          | cons _ hs => exact hs
          | cons₂ => exact absurd rfl h

/-- C8: `fuzzyMatch(query, text)` returns true exactly when the lowercased
query is a (not necessarily contiguous) subsequence of the lowercased text;
the empty query matches every text, and a blank filter input leaves the
file list unchanged. -/
theorem c8_fuzzy_match :
    (∀ query text : String, fuzzyMatch query text = true ↔
      (query.toList.map jsToLower).Sublist (text.toList.map jsToLower)) ∧
    (∀ text, fuzzyMatch "" text = true) ∧
    (∀ v files, jsTrim v = "" → applyFilter v files = files) := by
  refine ⟨?_, ?_, ?_⟩
  · intro query text
    exact fuzzyLoop_iff_sublist _ _
  · intro text
    exact (fuzzyLoop_iff_sublist _ _).mpr (List.nil_sublist _)
  · intro v files hv
    simp [applyFilter, hv]

/-- Witness for C8 at concrete strings and a concrete file list. -/
theorem c8_fuzzy_match_witness :
    fuzzyMatch "rdm" "docs/ReadMe.md" = true ∧
    fuzzyMatch "" "anything" = true ∧
    applyFilter "  " [⟨"1 KB", "Jan 1", "qmd://c/a.md", "a.md"⟩] =
      [⟨"1 KB", "Jan 1", "qmd://c/a.md", "a.md"⟩] :=
  ⟨(c8_fuzzy_match.1 "rdm" "docs/ReadMe.md").mpr (by decide),
   c8_fuzzy_match.2.1 "anything",
   c8_fuzzy_match.2.2 "  " [⟨"1 KB", "Jan 1", "qmd://c/a.md", "a.md"⟩]
     (by decide)⟩

/-- Membership in a single-character replacement: every character of the
result comes from the replacement string or is an untouched original
character. -/
theorem mem_replaceChar {c t : Char} {r l : List Char}
    (h : c ∈ replaceChar t r l) : c ∈ r ∨ (c ∈ l ∧ c ≠ t) := by
  induction l with
  | nil => simp [replaceChar] at h
  | cons d ds ih =>
    simp only [replaceChar, List.mem_append] at h
    rcases h with h | h
    · by_cases hd : d = t
      · rw [if_pos hd] at h
        exact Or.inl h
      · rw [if_neg hd] at h
        simp at h
        subst h
        exact Or.inr ⟨List.mem_cons_self _ _, hd⟩
    · rcases ih h with h' | ⟨hm, hne⟩
      · exact Or.inl h'
      · exact Or.inr ⟨List.mem_cons_of_mem _ hm, hne⟩

/-- No escaped output contains a raw left angle bracket, right angle
bracket or double quote. -/
theorem escapeHtml_no_markup (s : String) :
    '<' ∉ (escapeHtml s).toList ∧ '>' ∉ (escapeHtml s).toList ∧
    '\"' ∉ (escapeHtml s).toList := by
  refine ⟨?_, ?_, ?_⟩
  · intro hmem
    rcases mem_replaceChar hmem with h | ⟨h, hq⟩
    · revert h; decide
    rcases mem_replaceChar h with h | ⟨h, hg⟩
    · revert h; decide
    rcases mem_replaceChar h with h | ⟨h, hl⟩
    · revert h; decide
    exact hl rfl
  · intro hmem
    rcases mem_replaceChar hmem with h | ⟨h, hq⟩
    · revert h; decide
    rcases mem_replaceChar h with h | ⟨h, hg⟩
    · revert h; decide
    exact hg rfl
  · intro hmem
    rcases mem_replaceChar hmem with h | ⟨h, hq⟩
    · revert h; decide
    exact hq rfl

/-- C9: `escapeHtml` output contains no raw `<`, `>` or `"` character, and
the preview page's interpolation sites (the title element and each
frontmatter definition-list entry) contribute only their fixed template
markup: the number of angle brackets in an interpolated fragment is
independent of the escaped content. -/
theorem c9_escape_html :
    (∀ s, '<' ∉ (escapeHtml s).toList ∧ '>' ∉ (escapeHtml s).toList ∧
      '\"' ∉ (escapeHtml s).toList) ∧
    (∀ k v, (fmEntryHtml k v).toList.count '<' = 4 ∧
      (fmEntryHtml k v).toList.count '>' = 4) ∧
    (∀ t, ("<title>" ++ escapeHtml t ++ "</title>").toList.count '<' = 2 ∧
      ("<title>" ++ escapeHtml t ++ "</title>").toList.count '>' = 2) := by
  refine ⟨escapeHtml_no_markup, ?_, ?_⟩
  · intro k v
    have hsplit : (fmEntryHtml k v).toList =
        "<dt>".toList ++ (escapeHtml k).toList ++ "</dt><dd>".toList ++
          (escapeHtml v).toList ++ "</dd>".toList := rfl
    constructor
    · rw [hsplit]
      simp only [List.count_append,
        List.count_eq_zero.mpr (escapeHtml_no_markup k).1,
        List.count_eq_zero.mpr (escapeHtml_no_markup v).1]
      decide
    · rw [hsplit]
      simp only [List.count_append,
        List.count_eq_zero.mpr (escapeHtml_no_markup k).2.1,
        List.count_eq_zero.mpr (escapeHtml_no_markup v).2.1]
      decide
  · intro t
    have hsplit : ("<title>" ++ escapeHtml t ++ "</title>").toList =
        "<title>".toList ++ (escapeHtml t).toList ++ "</title>".toList := rfl
    constructor
    · rw [hsplit]
      simp only [List.count_append,
        List.count_eq_zero.mpr (escapeHtml_no_markup t).1]
      decide
    · rw [hsplit]
      simp only [List.count_append,
        List.count_eq_zero.mpr (escapeHtml_no_markup t).2.1]
      decide

/-- Witness for C9 at a concrete hostile string. -/
theorem c9_escape_html_witness :
    '<' ∉ (escapeHtml "<script>\"pwn\"</script>").toList ∧
    (fmEntryHtml "author" "<b>x</b>").toList.count '<' = 4 :=
  ⟨(c9_escape_html.1 "<script>\"pwn\"</script>").1,
   (c9_escape_html.2.1 "author" "<b>x</b>").1⟩

/-- C6: `listCollections` turns every block of the split output into at most
one descriptor: exactly one for each block whose header matches, none for
the others; a produced descriptor carries the parsed name and uri, the
config path (empty when absent), and the pattern, file count and updated
fields from the block with their respective defaults. -/
theorem c6_list_collections :
    (∀ cfg out, listCollections cfg out =
      (splitBlocks out).filterMap (parseBlock cfg)) ∧
    (∀ cfg block, (parseBlock cfg block).isSome ↔
      (matchHeader block).isSome) ∧
    (∀ cfg block c, parseBlock cfg block = some c →
      (∃ uriCap, matchHeader block = some (c.name, uriCap) ∧
        c.uri = "qmd://" ++ uriCap ++ "/") ∧
      c.path = (cfg.lookup c.name).getD "" ∧
      (∀ cap, searchLabel patternLabel block = some cap →
        c.pattern = String.mk (jsTrimList cap)) ∧
      (searchLabel patternLabel block = none → c.pattern = "**/*.md") ∧
      (∀ cap, searchDigits filesLabel block = some cap →
        c.files = digitsToNat cap) ∧
      (searchDigits filesLabel block = none → c.files = 0) ∧
      (∀ cap, searchLabel updatedLabel block = some cap →
        c.updated = String.mk (jsTrimList cap)) ∧
      (searchLabel updatedLabel block = none → c.updated = "unknown")) := by
  refine ⟨fun cfg out => rfl, ?_, ?_⟩
  · intro cfg block
    cases h : matchHeader block with
    | none => simp [parseBlock, h]
    | some nm =>
      obtain ⟨name, uriCap⟩ := nm
      simp [parseBlock, h]
  · intro cfg block c hc
    cases h : matchHeader block with
    | none => simp [parseBlock, h] at hc
    | some nm =>
      obtain ⟨name, uriCap⟩ := nm
      simp only [parseBlock, h, Option.some.injEq] at hc
      subst hc
      refine ⟨⟨uriCap, rfl, rfl⟩, rfl, ?_, ?_, ?_, ?_, ?_, ?_⟩
      · intro cap hcap
        simp [hcap]
      · intro hnone
        simp [hnone]
      · intro cap hcap
        simp [hcap]
      · intro hnone
        simp [hnone]
      · intro cap hcap
        simp [hcap]
      · intro hnone
        simp [hnone]

/-- Witness for C6 on a concrete two-block output: the first block parses
with an explicit pattern, count and timestamp, the second only has a header
and gets every default. -/
theorem c6_list_collections_witness :
    (Collection.pattern ⟨"notes", "qmd://notes/", "/p", "*.md", 42, "today"⟩
      = String.mk (jsTrimList "*.md".toList)) ∧
    (Collection.files ⟨"notes", "qmd://notes/", "/p", "*.md", 42, "today"⟩
      = digitsToNat "42".toList) ∧
    (Collection.pattern ⟨"work", "qmd://work/", "", "**/*.md", 0, "unknown"⟩
      = "**/*.md") ∧
    (Collection.files ⟨"work", "qmd://work/", "", "**/*.md", 0, "unknown"⟩
      = 0) ∧
    (Collection.updated ⟨"work", "qmd://work/", "", "**/*.md", 0, "unknown"⟩
      = "unknown") := by
  have h1 := c6_list_collections.2.2 [("notes", "/p")]
    "notes (qmd://notes/)\n  Pattern: *.md\n  Files: 42\n  Updated: today".toList
    ⟨"notes", "qmd://notes/", "/p", "*.md", 42, "today"⟩ (by decide)
  have h2 := c6_list_collections.2.2 [("notes", "/p")]
    "work (qmd://work)".toList
    ⟨"work", "qmd://work/", "", "**/*.md", 0, "unknown"⟩ (by decide)
  exact ⟨h1.2.2.1 "*.md".toList (by decide),
    h1.2.2.2.2.1 "42".toList (by decide),
    h2.2.2.2.1 (by decide),
    h2.2.2.2.2.2.1 (by decide),
    h2.2.2.2.2.2.2.2 (by decide)⟩

/-- C3 counterexample: with a preview base directory set, a request whose
path is neither `/` nor `/version` but names an existing file under the
base directory is answered with the file's content and status 200, not with
a not-found response. -/
theorem c3_counterexample :
    serverFetch id (fun _ => none)
      (fun p => if p = "/docs/pic.png" then some "PNGDATA" else none)
      ⟨0, some "/docs/readme.md", some "/docs"⟩ "/pic.png" =
      ⟨200, "PNGDATA"⟩ ∧
    "/pic.png" ≠ "/" ∧ "/pic.png" ≠ "/version" := by
  refine ⟨?_, by decide, by decide⟩
  decide

/-- C3 (amended): `/version` answers the version counter; `/` renders the
current preview file (404 with no file selected, 500 when reading throws);
every other path is served as a static file from the preview base directory
when the decoded path names an existing file there, and is otherwise
answered with a not-found response (or the runtime's 500 when the path does
not percent-decode). -/
theorem c3_server_routes (md : String → String)
    (yp : String → Option (List (String × String)))
    (fs : String → Option String) (s : ServerState) (path : String) :
    (path = "/version" →
      serverFetch md yp fs s path = ⟨200, toString s.previewVersion⟩) ∧
    (path = "/" → s.previewFilePath = none →
      serverFetch md yp fs s path = ⟨404, "No file selected"⟩) ∧
    (path = "/" → ∀ fp content, s.previewFilePath = some fp →
      fs fp = some content →
      serverFetch md yp fs s path =
        ⟨200, buildPreviewHtml md yp content fp⟩) ∧
    (path = "/" → ∀ fp, s.previewFilePath = some fp → fs fp = none →
      serverFetch md yp fs s path = ⟨500, "Error"⟩) ∧
    (path ≠ "/" → path ≠ "/version" →
      serverFetch md yp fs s path = ⟨404, "Not found"⟩ ∨
      (∃ base d content, s.previewBaseDir = some base ∧
        percentDecode path.toList = some d ∧
        fs (joinPath base (String.mk d)) = some content ∧
        serverFetch md yp fs s path = ⟨200, content⟩) ∨
      (percentDecode path.toList = none ∧ s.previewBaseDir ≠ none ∧
        serverFetch md yp fs s path = ⟨500, "Internal Server Error"⟩)) := by
  refine ⟨?_, ?_, ?_, ?_, ?_⟩
  · intro hv
    subst hv
    rfl
  · intro hr hfp
    subst hr
    simp [serverFetch, hfp]
  · intro hr fp content hfp hfs
    subst hr
    simp [serverFetch, hfp, hfs]
  · intro hr fp hfp hfs
    subst hr
    simp [serverFetch, hfp, hfs]
  · intro hr hv
    have hred : serverFetch md yp fs s path =
        (match s.previewBaseDir with
          | some base =>
            match percentDecode path.toList with
            | none => { status := 500, body := "Internal Server Error" }
            | some reqPath =>
              match fs (joinPath base (String.mk reqPath)) with
              | some content => { status := 200, body := content }
              | none => { status := 404, body := "Not found" }
          | none => { status := 404, body := "Not found" }) := by
      simp [serverFetch, hr, hv]
    cases hbd : s.previewBaseDir with
    | none =>
      rw [hbd] at hred
      exact Or.inl hred
    | some base =>
      rw [hbd] at hred
      cases hdec : percentDecode path.toList with
      | none =>
        rw [hdec] at hred
        exact Or.inr (Or.inr ⟨rfl, by simp, hred⟩)
      | some d =>
        rw [hdec] at hred
        have hred2 : serverFetch md yp fs s path =
            (match fs (joinPath base (String.mk d)) with
              | some content => ({ status := 200, body := content } : HttpResponse)
              | none => { status := 404, body := "Not found" }) := hred
        cases hfs : fs (joinPath base (String.mk d)) with
        | none =>
          rw [hfs] at hred2
          exact Or.inl hred2
        | some content =>
          rw [hfs] at hred2
          exact Or.inr (Or.inl ⟨base, d, content, rfl, rfl, hfs, hred2⟩)

/-- Witness for C3 (amended) at concrete states and paths. -/
theorem c3_server_routes_witness :
    serverFetch id (fun _ => none) (fun _ => none) ⟨5, none, none⟩ "/version"
      = ⟨200, "5"⟩ ∧
    serverFetch id (fun _ => none) (fun _ => none) ⟨5, none, none⟩ "/"
      = ⟨404, "No file selected"⟩ ∧
    (serverFetch id (fun _ => none) (fun _ => none) ⟨5, none, none⟩ "/other"
        = ⟨404, "Not found"⟩ ∨
      (∃ base d content, (none : Option String) = some base ∧
        percentDecode "/other".toList = some d ∧
        (fun _ => (none : Option String)) (joinPath base (String.mk d)) =
          some content ∧
        serverFetch id (fun _ => none) (fun _ => none) ⟨5, none, none⟩
          "/other" = ⟨200, content⟩) ∨
      (percentDecode "/other".toList = none ∧
        (none : Option String) ≠ none ∧
        serverFetch id (fun _ => none) (fun _ => none) ⟨5, none, none⟩
          "/other" = ⟨500, "Internal Server Error"⟩)) := by
  refine ⟨?_, ?_, ?_⟩
  · exact (c3_server_routes id (fun _ => none) (fun _ => none)
      ⟨5, none, none⟩ "/version").1 rfl
  · exact (c3_server_routes id (fun _ => none) (fun _ => none)
      ⟨5, none, none⟩ "/").2.1 rfl rfl
  · exact (c3_server_routes id (fun _ => none) (fun _ => none)
      ⟨5, none, none⟩ "/other").2.2.2.2 (by decide) (by decide)

/-- During a burst of matching events each arriving before the pending
timer fires (the chain relation `a ≤ b ∧ b < a + 100`), the timer never
fires: the version is unchanged and the pending timer follows the last
event. -/
theorem runWatch_burst (w : String) (v : Nat) :
    ∀ (ts : List Nat) (t : Nat),
      List.Chain (fun a b => a ≤ b ∧ b < a + 100) t ts →
      runWatch w ⟨v, some (t + 100)⟩ (ts.map (fun x => (x, some w))) =
        ⟨v, some (ts.getLastD t + 100)⟩ := by
  intro ts
  induction ts with
  | nil =>
    intro t _
    rfl
  | cons t' ts' ih =>
    intro t hchain
    rcases List.chain_cons.mp hchain with ⟨⟨_, hlt⟩, hchain'⟩
    have hstep : watchStep w ⟨v, some (t + 100)⟩ (t', some w) =
        ⟨v, some (t' + 100)⟩ := by
      have hexp : expireTimer ⟨v, some (t + 100)⟩ t' = ⟨v, some (t + 100)⟩ := by
        simp [expireTimer, Nat.not_le.mpr hlt]
      simp [watchStep, hexp, fsEvent]
    calc runWatch w ⟨v, some (t + 100)⟩
          (((t' :: ts').map (fun x => (x, some w))))
        = runWatch w ⟨v, some (t' + 100)⟩ (ts'.map (fun x => (x, some w))) := by
          simp only [List.map_cons, runWatch, List.foldl_cons, hstep]
      _ = ⟨v, some (ts'.getLastD t' + 100)⟩ := ih t' hchain'
      _ = ⟨v, some ((t' :: ts').getLastD t + 100)⟩ := by
          rw [List.getLastD_cons]

/-- One watch step never decreases the version counter. -/
theorem watchStep_version_le (w : String) (s : PreviewState)
    (ev : Nat × Option String) : s.version ≤ (watchStep w s ev).version := by
  have hfs : ∀ s' now fn, (fsEvent w s' now fn).version = s'.version := by
    intro s' now fn
    cases fn with
    | none => rfl
    | some name =>
      by_cases h : name = w <;> simp [fsEvent, h]
  have hexp : s.version ≤ (expireTimer s ev.1).version := by
    cases hp : s.pending with
    | none => simp [expireTimer, hp]
    | some tf =>
      by_cases h : tf ≤ ev.1
      · simp only [expireTimer, hp, if_pos h]
        exact Nat.le_succ _
      · simp [expireTimer, hp, h]
  calc s.version ≤ (expireTimer s ev.1).version := hexp
    _ = (watchStep w s ev).version := (hfs _ _ _).symm

/-- Over any event sequence the version counter is monotone. -/
theorem runWatch_version_mono (w : String) (events : List (Nat × Option String)) :
    ∀ s : PreviewState, s.version ≤ (runWatch w s events).version := by
  induction events with
  | nil =>
    intro s
    exact Nat.le_refl _
  | cons ev evs ih =>
    intro s
    calc s.version ≤ (watchStep w s ev).version := watchStep_version_le w s ev
      _ ≤ (runWatch w (watchStep w s ev) evs).version := ih _
      _ = (runWatch w s (ev :: evs)).version := rfl

/-- C1: watch events whose filename differs from the watched basename leave
the debounce state unchanged; a burst of matching events whose gaps all stay
inside the 100 ms window, run from an idle state and followed by the timer
firing, increments the version counter exactly once; the counter is
monotonically non-decreasing over any event sequence; and the `/version`
endpoint always answers the current counter value. -/
theorem c1_debounce (watchedName : String) :
    (∀ s now name, name ≠ watchedName →
      fsEvent watchedName s now (some name) = s) ∧
    (∀ (t0 : Nat) (ts : List Nat) (v : Nat),
      List.Chain (fun a b => a ≤ b ∧ b < a + 100) t0 ts →
      flushTimer (runWatch watchedName ⟨v, none⟩
        ((t0 :: ts).map (fun t => (t, some watchedName)))) = ⟨v + 1, none⟩) ∧
    (∀ s events, s.version ≤ (runWatch watchedName s events).version) ∧
    (∀ s, s.version ≤ (flushTimer s).version) ∧
    (∀ md yp fs st, serverFetch md yp fs st "/version" =
      ⟨200, toString st.previewVersion⟩) := by
  refine ⟨?_, ?_, ?_, ?_, ?_⟩
  · intro s now name h
    simp [fsEvent, h]
  · intro t0 ts v hchain
    have hfirst : watchStep watchedName ⟨v, none⟩ (t0, some watchedName) =
        ⟨v, some (t0 + 100)⟩ := by
      simp [watchStep, expireTimer, fsEvent]
    have hrun : runWatch watchedName ⟨v, none⟩
        ((t0 :: ts).map (fun t => (t, some watchedName))) =
        ⟨v, some (ts.getLastD t0 + 100)⟩ := by
      calc runWatch watchedName ⟨v, none⟩
            ((t0 :: ts).map (fun t => (t, some watchedName)))
          = runWatch watchedName ⟨v, some (t0 + 100)⟩
              (ts.map (fun t => (t, some watchedName))) := by
            simp only [List.map_cons, runWatch, List.foldl_cons, hfirst]
        _ = ⟨v, some (ts.getLastD t0 + 100)⟩ := runWatch_burst _ _ _ _ hchain
    rw [hrun]
    rfl
  · intro s events
    exact runWatch_version_mono watchedName events s
  · intro s
    cases hp : s.pending with
    | none => simp [flushTimer, hp]
    | some tf => simp [flushTimer, hp]
  · intro md yp fs st
    rfl

/-- Witness for C1: a burst of three matching saves at 0, 50 and 90 ms bumps
the counter once; a differently named file's event changes nothing. -/
theorem c1_debounce_witness :
    fsEvent "a.md" ⟨3, none⟩ 5 (some "b.md") = ⟨3, none⟩ ∧
    flushTimer (runWatch "a.md" ⟨7, none⟩
      [(0, some "a.md"), (50, some "a.md"), (90, some "a.md")]) = ⟨8, none⟩ ∧
    (⟨7, none⟩ : PreviewState).version ≤
      (runWatch "a.md" ⟨7, none⟩ [(0, some "b.md"), (200, some "a.md")]).version ∧
    serverFetch id (fun _ => none) (fun _ => none) ⟨8, none, none⟩ "/version" =
      ⟨200, "8"⟩ :=
  ⟨(c1_debounce "a.md").1 ⟨3, none⟩ 5 "b.md" (by decide),
   (c1_debounce "a.md").2.1 0 [50, 90] 7
     (List.Chain.cons ⟨by decide, by decide⟩
       (List.Chain.cons ⟨by decide, by decide⟩ List.Chain.nil)),
   (c1_debounce "a.md").2.2.1 ⟨7, none⟩ [(0, some "b.md"), (200, some "a.md")],
   (c1_debounce "a.md").2.2.2.2 id (fun _ => none) (fun _ => none)
     ⟨8, none, none⟩⟩

end LazyQmd
